import Mathlib

/-
Shallow embedding of the async combinator core of src/include/async.h.

The C++ type `Async<T> = std::function<void (ContinuationT<T>)>` is a callable
taking a continuation; its only observable effect is the sequence of
invocations of that continuation. We embed it as a function from a
continuation that records the observations it makes (a `List ω`) to the
observations produced by the whole start. The pure combinators (pure, fmap,
bind, sequence, ignore, zero) are direct transcriptions of their lambda
bodies.

The two stateful combinators, `apply` and `race`, capture a shared
mutex-guarded record (`Data`) in the closures they hand to their operand
asyncs. Which operand invokes its internal closure first (and how often) is
decided by the scheduler, not by the code; we embed these combinators as
state machines driven by a schedule: a list of branch-completion events, each
event being one invocation of the corresponding branch closure, executed
atomically as the mutex makes the check-and-set regions. The step functions
transcribe the bodies of the branch closures line by line.
-/

namespace async

/-- Embedding of `Async<T>` (async.h lines 18-34): a callable taking a
continuation. The continuation returns the list of observations it records;
the async returns the observations of the whole start. -/
abbrev Async (ω α : Type) : Type := (α → List ω) → List ω

/-- Embedding of `Async<void>`: the continuation takes no arguments, modelled
as taking `Unit`. -/
abbrev AsyncV (ω : Type) : Type := (Unit → List ω) → List ω

/-- Transcription of `async::pure` (async.h lines 75-85): lift a value into an
async context by calling the continuation with the captured value. -/
def pure (a : α) : Async ω α := fun cont => cont a

/-- Transcription of the void-async producers used by the tests (for example
`AsyncVoid` in main.cpp): call the zero-argument continuation once. -/
def pureV : AsyncV ω := fun cont => cont ()

/-- Transcription of `async::fmap` (async.h lines 91-112): the new async
passes the existing async a continuation that calls the new continuation with
the result of calling the function. -/
def fmap (f : α → β) (aa : Async ω α) : Async ω β :=
  fun cont => aa (fun a => cont (f a))

/-- Transcription of `async::bind` (async.h lines 180-201): start `aa` with a
continuation that computes `f a` and starts that async with the original
downstream continuation. -/
def bind (aa : Async ω α) (f : α → Async ω β) : Async ω β :=
  fun cont => aa (fun a => f a cont)

/-- Transcription of `async::sequence` for a value-carrying first operand
(async.h lines 206-220): like bind, but the first operand delivers its value
to a continuation that discards it, computes `f ()` and starts that async
with the original downstream continuation. -/
def sequence (aa : Async ω α) (f : Unit → Async ω β) : Async ω β :=
  fun cont => aa (fun _ => f () cont)

/-- Transcription of the `async::sequence` specialization for a no-value
first operand (async.h lines 222-236): the first operand completes with no
payload; the continuation passed to it takes no arguments, discards nothing,
computes `f ()` and starts that async with the original downstream
continuation. -/
def sequenceV (aa : AsyncV ω) (f : Unit → Async ω β) : Async ω β :=
  fun cont => aa (fun _ => f () cont)

/-- Transcription of `operator>` (async.h lines 444-451) for a value-carrying
left operand: it forwards to the `sequence<F, AA, A>` specialization. -/
def opGT (aa : Async ω α) (f : Unit → Async ω β) : Async ω β :=
  sequence aa f

/-- Transcription of `operator>` (async.h lines 444-451) for a no-value left
operand: the dispatch on `A = void` selects the `sequence<F, AA, void>`
specialization. -/
def opGTV (aa : AsyncV ω) (f : Unit → Async ω β) : Async ω β :=
  sequenceV aa f

/-- Embedding of `async::Void` (async.h line 239): the unit marker standing
in for a missing payload. -/
inductive Void : Type where
  | mk : Void
deriving DecidableEq, Repr

/-- Transcription of `async::ignore` (async.h lines 258-270): convert an
`Async<void>` to an `Async<Void>` by passing the void async a continuation
that invokes the downstream continuation with the `Void` marker. -/
def ignore (at1 : AsyncV ω) : Async ω Void :=
  fun cont => at1 (fun _ => cont Void.mk)

/-- Transcription of `async::zero` (async.h lines 337-341): the returned
async has an empty body and never calls its continuation. -/
def zero : Async ω α := fun _ => []

/-- Embedding of the shared `Data` record of `async::apply` (async.h lines
134-140): a unique_ptr to the delivered function, a unique_ptr to the
delivered argument, and the mutex guarding them. `pf : Option (α → β)`
embeds `std::unique_ptr<F>` and `pa : Option α` embeds
`std::unique_ptr<A>`; the mutex is reflected in each step of the state
machine being atomic. -/
structure ApplyData (α β : Type) where
  pf : Option (α → β)
  pa : Option α

/-- Transcription of the continuation apply hands to its function operand
`af` (async.h lines 145-157): under the lock read `have_a = (bool)pData->pa`
and, if the argument is absent, store `f`; after releasing the lock, if the
argument was present, invoke the downstream continuation with `f` applied to
the stored argument. Returns the updated state and the list of downstream
deliveries this invocation performs. -/
def applyStepF (d : ApplyData α β) (f : α → β) : ApplyData α β × List β :=
  match d.pa with
  | some a => (d, [f a])
  | none => ({ d with pf := some f }, [])

/-- Transcription of the continuation apply hands to its argument operand
`aa` (async.h lines 159-171): under the lock read `have_f = (bool)pData->pf`
and, if the function is absent, store `a`; after releasing the lock, if the
function was present, invoke the downstream continuation with the stored
function applied to `a`. -/
def applyStepA (d : ApplyData α β) (a : α) : ApplyData α β × List β :=
  match d.pf with
  | some f => (d, [f a])
  | none => ({ d with pa := some a }, [])

/-- One branch-completion event of a started `apply`: `Sum.inl f` is the
function operand invoking its internal continuation with `f`, `Sum.inr a` is
the argument operand invoking its internal continuation with `a`. -/
abbrev ApplyEvent (α β : Type) : Type := (α → β) ⊕ α

/-- Run the apply state machine over a schedule of branch-completion events,
threading the shared `Data` record and concatenating the downstream
deliveries in order. -/
def applyRun (d : ApplyData α β) : List (ApplyEvent α β) → ApplyData α β × List β
  | [] => (d, [])
  | e :: es =>
    let s1 := match e with
      | Sum.inl f => applyStepF d f
      | Sum.inr a => applyStepA d a
    let s2 := applyRun s1.1 es
    (s2.1, s1.2 ++ s2.2)

/-- One start of `async::apply` (async.h lines 140-142): the shared `Data`
record is freshly allocated with both unique_ptrs null, then the two
operands are started and their completions drive the state machine. -/
def applyStart (evs : List (ApplyEvent α β)) : ApplyData α β × List β :=
  applyRun ⟨none, none⟩ evs

/-- Embedding of `Either<L, R>` (either.h lines 10-87): a two-case tagged
value. The constructor `Either(L&&, bool)` builds the LEFT case and
`Either(R&&)` builds the RIGHT case. -/
inductive Either (L R : Type) : Type where
  | left : L → Either L R
  | right : R → Either L R
deriving DecidableEq, Repr

/-- Transcription of the continuation race hands to its first operand `aa`
(async.h lines 363-372): under the lock read the shared `done` flag and set
it to true; outside the lock, if it was not already set, invoke the
downstream continuation with `Either<A, B>(a, true)`, the LEFT case.
The shared state (async.h lines 351-357) is the single boolean `done`,
initially false. -/
def raceStepA (done : Bool) (a : α) : Bool × List (Either α β) :=
  (true, if done then [] else [Either.left a])

/-- Transcription of the continuation race hands to its second operand `ab`
(async.h lines 374-383): identical to the first branch except that the
downstream continuation receives `Either<A, B>(b)`, the RIGHT case. -/
def raceStepB (done : Bool) (b : β) : Bool × List (Either α β) :=
  (true, if done then [] else [Either.right b])

/-- One branch-completion event of a started `race`: `Sum.inl a` is the
first operand invoking its internal continuation with `a`, `Sum.inr b` the
second with `b`. -/
abbrev RaceEvent (α β : Type) : Type := α ⊕ β

/-- Run the race state machine over a schedule of branch-completion events,
threading the shared `done` flag and concatenating downstream deliveries. -/
def raceRun (done : Bool) : List (RaceEvent α β) → Bool × List (Either α β)
  | [] => (done, [])
  | e :: es =>
    let s1 := match e with
      | Sum.inl a => raceStepA done a
      | Sum.inr b => raceStepB done b
    let s2 := raceRun s1.1 es
    (s2.1, s1.2 ++ s2.2)

/-- Transcription of the per-delivery transformation performed by
`concurrently` (async.h lines 287-290), which is `apply(fmap(f, aa), ab)`:
`fmap` turns each delivery `a` of `aa` into the partial application
`function_traits<F>::apply(f, a)` before it reaches the function branch of
`apply`; deliveries of `ab` reach the argument branch unchanged. -/
def concEvent (f : α → β → γ) : α ⊕ β → ApplyEvent β γ
  | Sum.inl a => Sum.inl (f a)
  | Sum.inr b => Sum.inr b

/-- One start of `concurrently(aa, ab, f)` driven by a schedule of operand
completions: the apply state machine runs on the fmap-transformed events. -/
def concurrentlyRun (f : α → β → γ) (evs : List (α ⊕ β)) :
    ApplyData β γ × List γ :=
  applyStart (evs.map (concEvent f))

/-- Transcription of `operator&&` for two value-carrying operands (async.h
lines 457-468 dispatching to `runConcurrently<F, AA, AB, A, B>`, lines
292-301): join with `std::make_pair`. -/
def opAnd (evs : List (α ⊕ β)) : ApplyData β (α × β) × List (α × β) :=
  concurrentlyRun Prod.mk evs

/-- Transcription of `operator&&` for two no-value operands (async.h lines
457-468 dispatching to `runConcurrently<F, AA, AB, void, void>`, lines
325-334): each operand is first adapted by `ignore` into an `Async<Void>`,
so each completion event delivers the `Void` marker, and the pair of the two
markers is joined with `std::make_pair`. -/
def opAndVV (evs : List (Unit ⊕ Unit)) :
    ApplyData Void (Void × Void) × List (Void × Void) :=
  concurrentlyRun Prod.mk (evs.map (Sum.map (fun _ => Void.mk) (fun _ => Void.mk)))

end async

/-
Theorems start here.
-/

/-- Helper: once the shared `done` flag of race is set, every further
branch-completion event is a no-op: the flag stays set and no downstream
delivery happens. -/
lemma raceRun_done_absorbs {α β : Type} (evs : List (async.RaceEvent α β)) :
    async.raceRun true evs = (true, []) := by
  induction evs with
  | nil => rfl
  | cons e es ih =>
    cases e <;>
      simp [async.raceRun, async.raceStepA, async.raceStepB, ih]

/-- Helper: every step of the apply state machine preserves the property
that the function slot and the argument slot are not both populated. -/
lemma applyRun_keeps_disjoint {α β : Type} (evs : List (async.ApplyEvent α β)) :
    ∀ d : async.ApplyData α β, (d.pf = none ∨ d.pa = none) →
      ((async.applyRun d evs).1.pf = none ∨ (async.applyRun d evs).1.pa = none) := by
  induction evs with
  | nil =>
    intro d h
    simpa [async.applyRun] using h
  | cons e es ih =>
    intro d h
    cases e with
    | inl f =>
      cases hpa : d.pa with
      | none =>
        simp only [async.applyRun, async.applyStepF, hpa]
        exact ih _ (Or.inr rfl)
      | some a =>
        simp only [async.applyRun, async.applyStepF, hpa]
        exact ih _ h
    | inr a =>
      cases hpf : d.pf with
      | none =>
        simp only [async.applyRun, async.applyStepA, hpf]
        exact ih _ (Or.inl rfl)
      | some f =>
        simp only [async.applyRun, async.applyStepA, hpf]
        exact ih _ h

/-- C7: for every value a, pure(a) returns an async value that, when started
with a continuation k, invokes k(a) exactly once, synchronously within the
call that starts it, with no blocking and no failure path. In the trace
model: the observations of the whole start are exactly the observations of
the single call k a (so k is invoked inline, exactly once, with a); with the
recording continuation the delivery trace is exactly [a]. -/
theorem pure_invokes_continuation_once :
    ∀ (ω α : Type) (a : α),
      (∀ k : α → List ω, async.pure a k = k a) ∧
      async.pure a (fun x => [x]) = [a] := by
  intro ω α a
  exact ⟨fun k => rfl, rfl⟩

/-- C1: for every pair of asynchronous values and every downstream
continuation, a started race delivers exactly one value: whichever branch
invokes its internal continuation first, tagged into the Either result as
that branch's side (left when the first operand wins, right when the second
operand wins); all later branch completions, of any number and from either
branch, are swallowed and deliver nothing. -/
theorem race_first_completion_wins :
    ∀ (α β : Type) (a : α) (b : β) (evs : List (async.RaceEvent α β)),
      (async.raceRun false (Sum.inl a :: evs)).2 = [async.Either.left a] ∧
      (async.raceRun false (Sum.inr b :: evs)).2 = [async.Either.right b] := by
  intro α β a b evs
  constructor <;>
    simp [async.raceRun, async.raceStepA, async.raceStepB, raceRun_done_absorbs]

/-- C2: for a started apply, the operand that completes first only stores
its result in the shared join state and delivers nothing; the operand that
completes second detects the stored counterpart and invokes the downstream
continuation exactly once, with the same resulting value f a regardless of
which operand completed first. The schedule abstraction covers both orders,
including both operands completing synchronously in the same call stack. -/
theorem apply_second_arrival_fires_once :
    ∀ (α β : Type) (f : α → β) (a : α),
      async.applyStart [Sum.inl f] = (⟨some f, none⟩, []) ∧
      (async.applyStart [Sum.inr a] : async.ApplyData α β × List β) = (⟨none, some a⟩, []) ∧
      async.applyStart [Sum.inl f, Sum.inr a] = (⟨some f, none⟩, [f a]) ∧
      async.applyStart [Sum.inr a, Sum.inl f] = (⟨none, some a⟩, [f a]) := by
  intro α β f a
  exact ⟨rfl, rfl, rfl, rfl⟩

/-- C3: fmap satisfies the functor laws: fmap id aa delivers to its
continuation exactly what aa delivers, fmap g (fmap f aa) delivers the same
as fmap of the composition, and in particular fmap id (pure v) is identical
to pure v. -/
theorem fmap_functor_laws :
    ∀ (ω α β γ : Type) (aa : async.Async ω α) (f : α → β) (g : β → γ) (v : α),
      async.fmap id aa = aa ∧
      async.fmap g (async.fmap f aa) = async.fmap (fun a => g (f a)) aa ∧
      async.fmap id (async.pure v) = (async.pure v : async.Async ω α) := by
  intro ω α β γ aa f g v
  exact ⟨rfl, rfl, rfl⟩

/-- C4: bind satisfies the monad laws: bind (pure v) f delivers the same as
f v, bind m pure delivers the same as m, and bind is associative. -/
theorem bind_monad_laws :
    ∀ (ω α β γ : Type) (v : α) (m : async.Async ω α)
      (f : α → async.Async ω β) (g : β → async.Async ω γ),
      async.bind (async.pure v) f = f v ∧
      async.bind m async.pure = m ∧
      async.bind (async.bind m f) g = async.bind m (fun x => async.bind (f x) g) := by
  intro ω α β γ v m f g
  exact ⟨rfl, rfl, rfl⟩

/-- C5: the sequence operation behind the surface operator > starts its
first operand, discards that operand's delivered value (value-carrying left
operand, opGT) or its bare completion signal (no-value left operand, opGTV),
then computes f () and starts it with the original downstream continuation,
which receives exactly the result of f. The result type β is arbitrary,
covering both a value-carrying right side and the no-value right side
(AsyncV ω is Async ω Unit by definition), so all four combinations of
value-carrying and no-value operands are covered. -/
theorem sequence_discards_first_value :
    ∀ (ω α β : Type) (aa : async.Async ω α) (av : async.AsyncV ω)
      (f : Unit → async.Async ω β) (a : α) (k : β → List ω),
      async.opGT aa f k = aa (fun _ => f () k) ∧
      async.opGTV av f k = av (fun _ => f () k) ∧
      async.opGT (async.pure a) f = f () ∧
      async.opGTV async.pureV f = f () := by
  intro ω α β aa av f a k
  exact ⟨rfl, rfl, rfl, rfl⟩

/-- C6: the conjunction join operator delivers the pair of its operands'
results exactly once, in either completion order; for two no-value operands,
each adapted to an Async of Void markers, it delivers the pair of two Void
markers exactly once, not a void result. -/
theorem and_operator_delivers_pair_once :
    ∀ (α β : Type) (x : α) (y : β),
      (async.opAnd [Sum.inl x, Sum.inr y]).2 = [(x, y)] ∧
      (async.opAnd [Sum.inr y, Sum.inl x]).2 = [(x, y)] ∧
      (async.opAndVV [Sum.inl (), Sum.inr ()]).2 = [(async.Void.mk, async.Void.mk)] ∧
      (async.opAndVV [Sum.inr (), Sum.inl ()]).2 = [(async.Void.mk, async.Void.mk)] := by
  intro α β x y
  exact ⟨rfl, rfl, rfl, rfl⟩

/-- C8: the asynchronous value returned by zero, when started with any
continuation, never invokes that continuation: the observation trace of
every start is empty. -/
theorem zero_never_invokes :
    ∀ (ω α : Type) (k : α → List ω), async.zero k = [] := by
  intro ω α k
  rfl

/-- C9: the shared done flag of race is allocated once per call to race and
is shared across all starts of the returned asynchronous value: a first
start whose schedule contains at least one branch completion leaves the flag
set, and every run from a set flag, over any schedule of branch completions
of both operands, delivers nothing to its continuation and leaves the flag
set. -/
theorem race_done_flag_shared_across_starts :
    ∀ (α β : Type) (e : async.RaceEvent α β) (rest evs2 : List (async.RaceEvent α β)),
      (async.raceRun false (e :: rest)).1 = true ∧
      async.raceRun true evs2 = (true, []) ∧
      (async.raceRun (async.raceRun false (e :: rest)).1 evs2).2 = [] := by
  intro α β e rest evs2
  have h1 : (async.raceRun false (e :: rest)).1 = true := by
    cases e <;>
      simp [async.raceRun, async.raceStepA, async.raceStepB, raceRun_done_absorbs]
  refine ⟨h1, raceRun_done_absorbs evs2, ?h⟩
  rw [h1, raceRun_done_absorbs evs2]

/-- C10: in the shared join state of apply, the function slot and the
argument slot are never both populated: every reachable state of a start has
at least one slot empty; moreover the branch that arrives second invokes the
downstream continuation directly with its own freshly delivered value and
the stored counterpart, leaving the state unchanged, without storing its own
value. -/
theorem apply_slots_never_both_populated :
    ∀ (α β : Type) (evs : List (async.ApplyEvent α β)) (f : α → β) (a : α),
      ((async.applyStart evs).1.pf = none ∨ (async.applyStart evs).1.pa = none) ∧
      async.applyStepA ⟨some f, none⟩ a = (⟨some f, none⟩, [f a]) ∧
      async.applyStepF ⟨none, some a⟩ f = (⟨none, some a⟩, [f a]) := by
  intro α β evs f a
  exact ⟨applyRun_keeps_disjoint evs ⟨none, none⟩ (Or.inl rfl), rfl, rfl⟩
